import Mathlib

/-!
Verification development for the htpc-overlay player client and its
view/command state machine.  The Rust sources are shallowly embedded:

* playback times (the `Time` newtype over `f32`) enter the claims only
  through exact comparison, addition, subtraction and negation, so they
  are embedded as integers `ℤ` (a computable linearly ordered additive
  group); no claim depends on fractional values or rounding;
* the JSON values carried by the mpv IPC protocol are a small inductive
  `JVal`; serde deserializers become functions `JVal → Option α`;
* the socket is replaced by explicit data: incoming lines become list
  arguments, outgoing commands are recorded in a `sent` trace field, and
  values obtained through blocking property reads inside the seek-session
  machinery are supplied by a `SeekEnv` environment;
* `Instant` timestamps become integers, and `ended.elapsed()` becomes
  `now - ended` for the `now` carried by the environment.
-/

namespace Htpc

/-- JSON values as carried on the mpv IPC socket (serde_json `Value`,
with numbers idealized as integers, see the header note). -/
inductive JVal where
  | null
  | bool (b : Bool)
  | num (q : ℤ)
  | str (s : String)
  | arr (elems : List JVal)
  | obj (fields : List (String × JVal))

/-- Lookup in an association list keyed by property name.  Models
`HashMap<String, Value>` reads (keys are unique). -/
def lookupProp : List (String × JVal) → String → Option JVal
  | [], _ => none
  | (k, v) :: rest, name => if k = name then some v else lookupProp rest name

/-- Insert-or-replace in an association list keyed by property name.
Models `HashMap::insert` (last write wins per key, keys stay unique). -/
def insertProp : List (String × JVal) → String → JVal → List (String × JVal)
  | [], name, v => [(name, v)]
  | (k, w) :: rest, name, v =>
      if k = name then (name, v) :: rest else (k, w) :: insertProp rest name v

/-! ### Deserializers (serde models) -/

/-- Deserialize a JSON number (`f32`/`f64` fields, and the transparent
`Time` newtype). -/
def JVal.asNum : JVal → Option ℤ
  | .num q => some q
  | _ => none

/-- Deserialize a JSON boolean. -/
def JVal.asBool : JVal → Option Bool
  | .bool b => some b
  | _ => none

/-- Deserialize a JSON string. -/
def JVal.asStr : JVal → Option String
  | .str s => some s
  | _ => none

/-- Deserialize an `i32` field (numbers being idealized as integers,
this coincides with `asNum`). -/
def JVal.asInt : JVal → Option ℤ
  | .num q => some q
  | _ => none

/-- Deserialize an `Option<String>` struct field: absent or null is
`none`, a string succeeds, anything else is a deserialization error. -/
def deserOptString : Option JVal → Option (Option String)
  | none => some none
  | some .null => some none
  | some (.str s) => some (some s)
  | some _ => none

/-- Deserialize a `#[serde(default)] bool` struct field: absent is
`false`, a boolean succeeds, anything else is an error. -/
def deserBoolDefault : Option JVal → Option Bool
  | none => some false
  | some (.bool b) => some b
  | some _ => none

/-- `ChapterRaw` from `mpv/mod.rs`: one entry of the `chapter-list`
property. -/
structure ChapterRaw where
  title : Option String
  time : ℤ
  deriving DecidableEq

/-- serde model for one `ChapterRaw` object. -/
def ChapterRaw.deser : JVal → Option ChapterRaw
  | .obj fields => do
      let title ← deserOptString (lookupProp fields "title")
      let tv ← lookupProp fields "time"
      let t ← tv.asNum
      pure ⟨title, t⟩
  | _ => none

/-- serde model for the `chapter-list` payload (`Vec<ChapterRaw>`). -/
def deserChapterList : JVal → Option (List ChapterRaw)
  | .arr elems => elems.mapM ChapterRaw.deser
  | _ => none

/-- `TrackType` from `mpv/mod.rs`. -/
inductive TrackType where
  | video
  | audio
  | sub
  deriving DecidableEq

/-- serde model for `TrackType` (lowercase strings). -/
def TrackType.deser : JVal → Option TrackType
  | .str s =>
      if s = "video" then some .video
      else if s = "audio" then some .audio
      else if s = "sub" then some .sub
      else none
  | _ => none

/-- `Track` from `mpv/mod.rs`: one entry of the `track-list` property. -/
structure Track where
  ty : TrackType
  id : ℤ
  title : Option String
  lang : Option String
  codec : Option String
  external_filename : Option String
  selected : Bool
  deriving DecidableEq

/-- serde model for one `Track` object (kebab-case field names, `type`
renamed to `ty`). -/
def Track.deser : JVal → Option Track
  | .obj fields => do
      let tyv ← lookupProp fields "type"
      let ty ← TrackType.deser tyv
      let idv ← lookupProp fields "id"
      let id ← idv.asInt
      let title ← deserOptString (lookupProp fields "title")
      let lang ← deserOptString (lookupProp fields "lang")
      let codec ← deserOptString (lookupProp fields "codec")
      let ext ← deserOptString (lookupProp fields "external-filename")
      let selected ← deserBoolDefault (lookupProp fields "selected")
      pure ⟨ty, id, title, lang, codec, ext, selected⟩
  | _ => none

/-- serde model for the `track-list` payload (`Vec<Track>`). -/
def deserTrackList : JVal → Option (List Track)
  | .arr elems => elems.mapM Track.deser
  | _ => none

/-- `PlaylistEntry` from `mpv/mod.rs`: one entry of the `playlist`
property. -/
structure PlaylistEntry where
  filename : String
  playing : Bool
  current : Bool
  title : Option String
  id : ℤ
  playlist_path : Option String
  deriving DecidableEq

/-- serde model for one `PlaylistEntry` object. -/
def PlaylistEntry.deser : JVal → Option PlaylistEntry
  | .obj fields => do
      let fnv ← lookupProp fields "filename"
      let filename ← fnv.asStr
      let playing ← deserBoolDefault (lookupProp fields "playing")
      let current ← deserBoolDefault (lookupProp fields "current")
      let title ← deserOptString (lookupProp fields "title")
      let idv ← lookupProp fields "id"
      let id ← idv.asInt
      let pp ← deserOptString (lookupProp fields "playlist-path")
      pure ⟨filename, playing, current, title, id, pp⟩
  | _ => none

/-- serde model for the `playlist` payload (`Vec<PlaylistEntry>`). -/
def deserPlaylist : JVal → Option (List PlaylistEntry)
  | .arr elems => elems.mapM PlaylistEntry.deser
  | _ => none

/-! ### Seek speed ladder (`mpv/seek_speed.rs`) -/

/-- `SeekSpeed` from `mpv/seek_speed.rs`: the closed seek-distance ladder. -/
inductive SeekSpeed where
  | second
  | fiveSeconds
  | thirtySeconds
  | minute
  | tenMinutes
  deriving DecidableEq

/-- `SeekSpeed::duration`, in seconds (`Duration::from_secs`). -/
def SeekSpeed.duration : SeekSpeed → ℤ
  | .second => 1
  | .fiveSeconds => 5
  | .thirtySeconds => 30
  | .minute => 60
  | .tenMinutes => 600

/-- `SeekSpeed::label`. -/
def SeekSpeed.label : SeekSpeed → String
  | .second => "1s"
  | .fiveSeconds => "5s"
  | .thirtySeconds => "30s"
  | .minute => "1m"
  | .tenMinutes => "10m"

/-- `SeekSpeed::longer`: one step up the ladder, `none` at the top. -/
def SeekSpeed.longer : SeekSpeed → Option SeekSpeed
  | .second => some .fiveSeconds
  | .fiveSeconds => some .thirtySeconds
  | .thirtySeconds => some .minute
  | .minute => some .tenMinutes
  | .tenMinutes => none

/-- `SeekSpeed::shorter`: one step down the ladder, `none` at the bottom. -/
def SeekSpeed.shorter : SeekSpeed → Option SeekSpeed
  | .second => none
  | .fiveSeconds => some .second
  | .thirtySeconds => some .fiveSeconds
  | .minute => some .thirtySeconds
  | .tenMinutes => some .minute

/-- The `#[default]` variant of `SeekSpeed`. -/
def SeekSpeed.defaultSpeed : SeekSpeed := .fiveSeconds

/-- Modelled from the spec: `SeekSpeed::time`, the seek distance of a speed
as a `Time` in seconds, is called by `Mpv::seek_inner` but its definition is
not among the provided sources; the spec describes the ladder as the seek
distances {1s, 5s, 30s, 1m, 10m}, so the distance equals the duration of
the rung in seconds. -/
def SeekSpeed.time (s : SeekSpeed) : ℤ := s.duration

/-- Iterate a ladder step function `n` times from a speed (for the
eventually-`none` claims). -/
def stepN (f : SeekSpeed → Option SeekSpeed) : ℕ → SeekSpeed → Option SeekSpeed
  | 0, s => some s
  | n + 1, s => (f s).bind (stepN f n)

/-! ### The mpv protocol and client state (`mpv/mod.rs`, `mpv/command.rs`) -/

/-- `SeekState` from `mpv/mod.rs`: the interactive seek session.  `ended`
is the `Instant` at which `finish_seek` ran (grace window), embedded as a
rational timestamp. -/
structure SeekState where
  speed : SeekSpeed
  exact : Bool
  ended : Option ℤ
  pos : ℤ
  paused : Bool
  deriving DecidableEq

/-- `Event` from `mpv/command.rs`: a deserialized incoming event line. -/
inductive Event where
  | property_change (data : JVal) (name : String)
  | seek
  | unknown

/-- An outbound command line (`mpv/command.rs`, `Command` constructors),
as recorded in the `sent` trace of the embedded client. -/
inductive MpvCommand where
  | observe_property (id : ℤ) (name : String)
  | set_property (name : String) (value : JVal)
  | cycle (name : String)
  | add (name : String) (value : ℤ)
  | seek (seconds : ℤ) (exact : Bool)

/-- `EventOrResponse` from `mpv/command.rs`: a line read while awaiting a
command response. -/
inductive EventOrResponse where
  | event (e : Event)
  | response (error : String) (data : Option JVal)

/-- `Mpv` from `mpv/mod.rs`.  The socket is replaced by the `sent` trace
of outbound commands; incoming lines are passed to the operations as
explicit lists. -/
structure Mpv where
  observed_properties : List (String × JVal)
  next_observe_id : ℤ
  event_buffer : List Event
  seek_state : Option SeekState
  tracks : List Track
  chapters : List ChapterRaw
  playlist : List PlaylistEntry
  sent : List MpvCommand

/-- `Mpv::handle_event`: route one event into the cached state.  The
composite list properties go through `store_deserialized_property`, whose
failure keeps the previous field value; every other property-change is
inserted into the cached map; `Seek` and unknown events change nothing. -/
def Mpv.handle_event (s : Mpv) (ev : Event) : Mpv :=
  match ev with
  | .property_change data name =>
      if name = "playlist" then
        match deserPlaylist data with
        | some v => { s with playlist := v }
        | none => s
      else if name = "track-list" then
        match deserTrackList data with
        | some v => { s with tracks := v }
        | none => s
      else if name = "chapter-list" then
        match deserChapterList data with
        | some v => { s with chapters := v }
        | none => s
      else
        { s with observed_properties := insertProp s.observed_properties name data }
  | .seek => s
  | .unknown => s

/-- The event lines preceding the first response line in a stream of
incoming lines. -/
def eventsBefore : List EventOrResponse → List Event
  | [] => []
  | .event e :: rest => e :: eventsBefore rest
  | .response _ _ :: _ => []

/-- `Mpv::read_response`: read lines until a response appears, pushing
every event line onto the pending-event buffer.  `lines` is the stream of
incoming lines; the result is `none` when no response line is among them
(the real code would keep blocking). -/
def Mpv.read_response (s : Mpv) : List EventOrResponse → Option ((String × Option JVal) × Mpv)
  | [] => none
  | .event e :: rest =>
      Mpv.read_response { s with event_buffer := s.event_buffer ++ [e] } rest
  | .response err data :: _ => some ((err, data), s)

/-- `Mpv::read_events`: drain currently available event lines onto the
pending-event buffer (`incoming` is what the non-blocking reads yield). -/
def Mpv.read_events (s : Mpv) (incoming : List Event) : Mpv :=
  { s with event_buffer := s.event_buffer ++ incoming }

/-- `Mpv::update`: drain available events, then take the whole buffer and
handle each event in order. -/
def Mpv.update (s : Mpv) (incoming : List Event) : Mpv :=
  let s1 := s.read_events incoming
  List.foldl Mpv.handle_event { s1 with event_buffer := [] } s1.event_buffer

/-- `Mpv::get_property_cached`: read the cached map and deserialize,
yielding `none` both when the property is absent and when the stored
value fails to deserialize (`.ok()`). -/
def Mpv.get_property_cached (d : JVal → Option α) (s : Mpv) (name : String) : Option α :=
  (lookupProp s.observed_properties name).bind d

/-- First property-change event for `name` in a list of events (the scan
the `get_property` wait loop performs over the event buffer). -/
def findPropChange (name : String) : List Event → Option JVal
  | [] => none
  | .property_change data n :: rest =>
      if n = name then some data else findPropChange name rest
  | _ :: rest => findPropChange name rest

/-- Outcome of a blocking `Mpv::get_property` read: a value, a panic
(failed deserialization of the awaited event), or blocking forever. -/
inductive PropRead (α : Type) where
  | value (a : α)
  | panicked
  | blocked
  deriving DecidableEq

/-- `Mpv::get_property`: return the cached value when it is present and
deserializes; otherwise observe the property and busy-poll the event
stream until a property-change for `name` arrives, panicking when that
event fails to deserialize and blocking forever when no such event ever
arrives.  `future` is the stream of events the polling loop will read
after the already-buffered ones; the observe round trip itself is not
re-modelled here. -/
def Mpv.get_property (d : JVal → Option α) (s : Mpv) (name : String)
    (future : List Event) : PropRead α :=
  match s.get_property_cached d name with
  | some v => .value v
  | none =>
      match findPropChange name (s.event_buffer ++ future) with
      | some data =>
          match d data with
          | some t => .value t
          | none => .panicked
      | none => .blocked

/-- `Mpv::time_pos`: cached `time-pos` as a `Time`. -/
def Mpv.time_pos (s : Mpv) : Option ℤ :=
  s.get_property_cached JVal.asNum "time-pos"

/-- `Mpv::time_pos_fallback`. -/
def Mpv.time_pos_fallback (s : Mpv) : ℤ :=
  s.time_pos.getD 0

/-- `Mpv::duration`: cached `duration` as a `Time`. -/
def Mpv.durationProp (s : Mpv) : Option ℤ :=
  s.get_property_cached JVal.asNum "duration"

/-- `Mpv::duration_fallback`. -/
def Mpv.duration_fallback (s : Mpv) : ℤ :=
  s.durationProp.getD s.time_pos_fallback

/-- `Mpv::seconds_left`: `duration - time_pos`, defined only when both
are cached with positive duration and non-negative position. -/
def Mpv.seconds_left (s : Mpv) : Option ℤ := do
  let duration ← s.durationProp
  let position ← s.time_pos
  if 0 < duration ∧ 0 ≤ position then some (duration - position) else none

/-! ### Seek session state machine (`mpv/mod.rs`) -/

/-- Environment for the seek-session operations: the current `Instant`
and the values the blocking `get_property` reads of `percent-pos` and
`pause` return from the player. -/
structure SeekEnv where
  now : ℤ
  percentPos : ℤ
  pausedProp : Bool

/-- `Command::set_property("pause", true)` as issued by `Mpv::pause`. -/
def pauseCmd : MpvCommand := .set_property "pause" (JVal.bool true)

/-- `Command::set_property("pause", false)` as issued by `Mpv::unpause`. -/
def unpauseCmd : MpvCommand := .set_property "pause" (JVal.bool false)

/-- `Mpv::seek_state` (the method): create, resume, or return the live
seek session.  A session in the grace window (ended strictly less than 60
seconds ago) is resumed: position and pause are re-snapshotted from the
player, the player is re-paused, and `ended` is cleared; a live session
is returned untouched; otherwise (no session, or grace expired) a fresh
session with default speed, `exact = false`, and a fresh snapshot is
created and the player is paused. -/
def Mpv.seekState (env : SeekEnv) (s : Mpv) : Mpv :=
  match s.seek_state with
  | some st =>
      match st.ended with
      | some endedAt =>
          if env.now - endedAt < 60 then
            { s with
                seek_state := some { st with
                  pos := env.percentPos
                  paused := env.pausedProp
                  ended := none }
                sent := s.sent ++ [pauseCmd] }
          else
            { s with
                seek_state := some
                  { speed := SeekSpeed.defaultSpeed
                    exact := false
                    ended := none
                    pos := env.percentPos
                    paused := env.pausedProp }
                sent := s.sent ++ [pauseCmd] }
      | none => s
  | none =>
      { s with
          seek_state := some
            { speed := SeekSpeed.defaultSpeed
              exact := false
              ended := none
              pos := env.percentPos
              paused := env.pausedProp }
          sent := s.sent ++ [pauseCmd] }

/-- `Mpv::start_seek`. -/
def Mpv.start_seek (env : SeekEnv) (s : Mpv) : Mpv :=
  s.seekState env

/-- `Mpv::seek_inner`: compute `seconds_left` from the cache, obtain the
session (creating or resuming it if needed), take the signed seek
distance from the current speed, force exact mode when a forward seek
would pass the known end of media, and issue the seek command. -/
def Mpv.seek_inner (env : SeekEnv) (forward : Bool) (s : Mpv) : Mpv :=
  let secondsLeft := s.seconds_left
  let s1 := s.seekState env
  match s1.seek_state with
  | some st =>
      let seconds := if forward then st.speed.time else -st.speed.time
      let wouldSeekPastEnd :=
        forward && (match secondsLeft with
          | some left => decide (left < seconds)
          | none => false)
      let exact := st.exact || wouldSeekPastEnd
      { s1 with sent := s1.sent ++ [MpvCommand.seek seconds exact] }
  | none => s1

/-- `Mpv::seek_forward`. -/
def Mpv.seek_forward (env : SeekEnv) (s : Mpv) : Mpv :=
  s.seek_inner env true

/-- `Mpv::seek_backward`. -/
def Mpv.seek_backward (env : SeekEnv) (s : Mpv) : Mpv :=
  s.seek_inner env false

/-- `Mpv::seek_stateless`: issue a fixed seek, bypassing the session. -/
def Mpv.seek_stateless (seconds : ℤ) (exact : Bool) (s : Mpv) : Mpv :=
  { s with sent := s.sent ++ [MpvCommand.seek seconds exact] }

/-- `Mpv::seek_faster`: step the session speed up the ladder; no-op when
no session exists or the speed is at the top. -/
def Mpv.seek_faster (s : Mpv) : Mpv :=
  match s.seek_state with
  | some st =>
      match st.speed.longer with
      | some newSpeed => { s with seek_state := some { st with speed := newSpeed } }
      | none => s
  | none => s

/-- `Mpv::seek_slower`: step the session speed down the ladder; no-op
when no session exists or the speed is at the bottom. -/
def Mpv.seek_slower (s : Mpv) : Mpv :=
  match s.seek_state with
  | some st =>
      match st.speed.shorter with
      | some newSpeed => { s with seek_state := some { st with speed := newSpeed } }
      | none => s
  | none => s

/-- `Mpv::seek_exact` (the query). -/
def Mpv.seek_exact_query (s : Mpv) : Bool :=
  match s.seek_state with
  | some st => st.exact
  | none => false

/-- `Mpv::toggle_seek_exact`: flip the exact flag of the session; no-op
when no session exists. -/
def Mpv.toggle_seek_exact (s : Mpv) : Mpv :=
  match s.seek_state with
  | some st => { s with seek_state := some { st with exact := !st.exact } }
  | none => s

/-- `Mpv::seek_speed` (the query). -/
def Mpv.seek_speed (s : Mpv) : Option SeekSpeed :=
  s.seek_state.map (·.speed)

/-- `Mpv::finish_seek`: when a session exists, stamp `ended := now` and,
when the pre-session state was unpaused, unpause the player. -/
def Mpv.finish_seek (env : SeekEnv) (s : Mpv) : Mpv :=
  match s.seek_state with
  | some st =>
      { s with
          seek_state := some { st with ended := some env.now }
          sent := s.sent ++ (if !st.paused then [unpauseCmd] else []) }
  | none => s

/-- `Mpv::cancel_seek`: take the session (leaving none, whatever state it
was in), write the snapshotted position back as an absolute property
write, and unpause when the pre-session state was unpaused. -/
def Mpv.cancel_seek (s : Mpv) : Mpv :=
  match s.seek_state with
  | some st =>
      { s with
          seek_state := none
          sent := s.sent ++ [MpvCommand.set_property "percent-pos" (JVal.num st.pos)]
            ++ (if !st.paused then [unpauseCmd] else []) }
  | none => s

/-! ### Chapter derivation (`Mpv::chapters`) -/

/-- `Iterator::rposition` on a list: the index of the last element
satisfying the predicate. -/
def rposition (p : α → Bool) : List α → Option ℕ
  | [] => none
  | x :: xs =>
      match rposition p xs with
      | some i => some (i + 1)
      | none => if p x then some 0 else none

/-- `Chapter` from `mpv/mod.rs` (titles copied rather than borrowed). -/
structure Chapter where
  title : Option String
  start : ℤ
  current : Bool
  duration : ℤ
  deriving DecidableEq

/-- `Mpv::chapters` (the method): the derived chapter list.  Empty when
the raw list is empty; otherwise the current chapter is the last raw
chapter whose start time is at most the cached position (none when the
position is unknown), and each chapter lasts until the next chapter
starts, the final one until the media duration fallback. -/
def Mpv.chaptersView (s : Mpv) : List Chapter :=
  if s.chapters.isEmpty then []
  else
    let currentChapterIndex :=
      s.time_pos.bind fun timePos =>
        rposition (fun c => decide (c.time ≤ timePos)) s.chapters
    let starts := s.chapters.map (·.time)
    let ends := (s.chapters.drop 1).map (·.time) ++ [s.duration_fallback]
    let durations := (starts.zip ends).map fun p => p.2 - p.1
    ((s.chapters.zip durations).enum).map fun p =>
      { title := p.2.1.title
        start := p.2.1.time
        current := decide (currentChapterIndex = some p.1)
        duration := p.2.2 }

/-! ### Commands, buttons, views (`command.rs`, `ui/views/hidden.rs`) -/

/-- egui `FocusDirection`, carried as a payload by `Command::MoveFocus`. -/
inductive FocusDirection where
  | up
  | down
  | left
  | right
  deriving DecidableEq

/-- gilrs `Button` identifiers (the ones `Actions::iter` maps, plus the
remaining gilrs variants, which stay unbound). -/
inductive Button where
  | south
  | east
  | north
  | west
  | c
  | z
  | leftTrigger
  | leftTrigger2
  | rightTrigger
  | rightTrigger2
  | select
  | start
  | mode
  | leftThumb
  | rightThumb
  | dpadUp
  | dpadDown
  | dpadLeft
  | dpadRight
  | unknown
  deriving DecidableEq

/-- `Command` from `command.rs`.  `showMenu` additionally appears in the
`ui/views/hidden.rs` revision of the hidden-view button table (and in the
`main.rs` revision of the command enum); it is included so that table can
be embedded verbatim. -/
inductive Command where
  | none
  | showMiniSeek
  | showUi
  | hideUi
  | showMediaMenu
  | showHomeMenu
  | showMenu
  | moveFocus (dir : FocusDirection)
  | activate
  | togglePause
  | startSeeking
  | seekBackward
  | seekForward
  | seekBackwardStateless
  | seekForwardStateless
  | doneSeeking
  | cancelSeeking
  | seekFaster
  | seekSlower
  | seekExact
  | volumeUp
  | volumeDown
  | quit
  deriving DecidableEq

/-- The view variants command execution can install (`View` is a trait in
the split revision; this closed union covers the views `Command::execute`
constructs, with the menu views at their `main` submenu, plus the
`View::Menu` target of the `main.rs` revision). -/
inductive View where
  | hidden
  | miniSeek
  | seekBar
  | seeking
  | mediaMenu
  | homeMenu
  | menu
  deriving DecidableEq

/-- `Actions` from `command.rs`: the fixed button table; unset fields
default to `Command::None`. -/
structure Actions where
  a : Command := .none
  b : Command := .none
  x : Command := .none
  y : Command := .none
  l1 : Command := .none
  l2 : Command := .none
  r1 : Command := .none
  r2 : Command := .none
  up : Command := .none
  down : Command := .none
  left : Command := .none
  right : Command := .none
  select : Command := .none
  start : Command := .none
  home : Command := .none
  deriving DecidableEq

/-- `Actions::iter`: the fixed button/command pairing. -/
def Actions.iter (acts : Actions) : List (Button × Command) :=
  [ (.east, acts.a)
  , (.south, acts.b)
  , (.north, acts.x)
  , (.west, acts.y)
  , (.leftTrigger, acts.l1)
  , (.leftTrigger2, acts.l2)
  , (.rightTrigger, acts.r1)
  , (.rightTrigger2, acts.r2)
  , (.dpadUp, acts.up)
  , (.dpadDown, acts.down)
  , (.dpadLeft, acts.left)
  , (.dpadRight, acts.right)
  , (.select, acts.select)
  , (.start, acts.start)
  , (.mode, acts.home) ]

/-- `Actions::get`: find the command bound to a button, `Command::None`
when unbound. -/
def Actions.get (acts : Actions) (button : Button) : Command :=
  (((acts.iter).find? fun p => decide (p.1 = button)).map Prod.snd).getD .none

/-- `HiddenView::button_actions` from `ui/views/hidden.rs`. -/
def HiddenView.button_actions : Actions :=
  { a := .startSeeking
    b := .showUi
    x := .togglePause
    y := .showUi
    left := .seekBackwardStateless
    right := .seekForwardStateless
    up := .volumeUp
    down := .volumeDown
    select := .showMiniSeek
    start := .showMenu }

/-- Effects applied to the egui context by command execution
(`MoveFocus` and `Activate`), recorded as a trace. -/
inductive CtxEffect where
  | moveFocus (dir : FocusDirection)
  | activated
  deriving DecidableEq

/-- The application state commands execute against: the current view,
the player client, the discovered DLNA device volumes, the egui-context
effect trace, and the exit flag. -/
structure App where
  view : View
  mpv : Mpv
  dlnaVolumes : List ℕ
  ctxEffects : List CtxEffect
  exitRequested : Bool

/-- `App::change_view` (from the `main.rs` revision): replace the current
view wholesale, with an early return when it is unchanged. -/
def App.change_view (app : App) (newView : View) : App :=
  if app.view = newView then app else { app with view := newView }

/-- `DlnaDevice::set_volume`: clamp to 0..=100 (the SOAP round trip is
out of scope). -/
def dlnaSetVolume (v : ℕ) : ℕ := min v 100

/-- `Command::execute` from `command.rs`, over the embedded `App`.  The
`showMenu` arm follows the `main.rs` revision (`View::Menu`), since the
`command.rs` revision has no such arm; `Quit` stores the exit flag;
`MoveFocus` and `Activate` touch only the egui context, recorded as
effects; the volume arms follow the `u8` float-cast saturation of the
source and the clamp in `DlnaDevice::set_volume`. -/
def Command.execute (env : SeekEnv) (cmd : Command) (app : App) : App :=
  match cmd with
  | .none => app
  | .showMiniSeek => app.change_view .miniSeek
  | .showUi => app.change_view .seekBar
  | .hideUi => app.change_view .hidden
  | .showMediaMenu => app.change_view .mediaMenu
  | .showHomeMenu => app.change_view .homeMenu
  | .showMenu => app.change_view .menu
  | .moveFocus dir => { app with ctxEffects := app.ctxEffects ++ [.moveFocus dir] }
  | .activate => { app with ctxEffects := app.ctxEffects ++ [.activated] }
  | .togglePause => { app with mpv := { app.mpv with sent := app.mpv.sent ++ [.cycle "pause"] } }
  | .startSeeking => (({ app with mpv := app.mpv.start_seek env } : App)).change_view .seeking
  | .seekForward => { app with mpv := app.mpv.seek_forward env }
  | .seekBackward => { app with mpv := app.mpv.seek_backward env }
  | .seekForwardStateless => { app with mpv := app.mpv.seek_stateless 5 false }
  | .seekBackwardStateless => { app with mpv := app.mpv.seek_stateless (-5) false }
  | .doneSeeking => { (app.change_view .seekBar) with mpv := app.mpv.finish_seek env }
  | .cancelSeeking => { (app.change_view .seekBar) with mpv := app.mpv.cancel_seek }
  | .seekFaster => { app with mpv := app.mpv.seek_faster }
  | .seekSlower => { app with mpv := app.mpv.seek_slower }
  | .seekExact => { app with mpv := app.mpv.toggle_seek_exact }
  | .volumeUp =>
      match app.dlnaVolumes with
      | [] => app
      | v :: rest => { app with dlnaVolumes := dlnaSetVolume (v + 5) :: rest }
  | .volumeDown =>
      match app.dlnaVolumes with
      | [] => app
      | v :: rest => { app with dlnaVolumes := dlnaSetVolume (v - 5) :: rest }
  | .quit => { app with exitRequested := true }

/-! ### Auxiliary definitions for the statements -/

/-- Data of the last property-change event for `name` in a list of
events (arrival order). -/
def lastPropData (name : String) : List Event → Option JVal
  | [] => none
  | ev :: rest =>
      match lastPropData name rest with
      | some d => some d
      | none =>
          match ev with
          | .property_change data n => if n = name then some data else none
          | _ => none

/-- A client state with empty caches and no session, used as a concrete
base point for witnesses. -/
def emptyMpv : Mpv :=
  { observed_properties := []
    next_observe_id := 0
    event_buffer := []
    seek_state := none
    tracks := []
    chapters := []
    playlist := []
    sent := [] }

/-- A concrete state whose cached `volume` value is a string, so that a
numeric read of it fails to deserialize. -/
def badCacheMpv : Mpv :=
  { emptyMpv with observed_properties := [("volume", JVal.str "loud")] }

/-- A concrete live seek session. -/
def liveSession : SeekState :=
  { speed := .thirtySeconds, exact := true, ended := none, pos := 37, paused := false }

/-- A concrete state holding `liveSession`. -/
def liveMpv : Mpv := { emptyMpv with seek_state := some liveSession }

/-- A concrete session inside the grace window (ended at time 100). -/
def graceSession : SeekState :=
  { speed := .minute, exact := true, ended := some 100, pos := 12, paused := true }

/-- A concrete state holding `graceSession`. -/
def graceMpv : Mpv := { emptyMpv with seek_state := some graceSession }

/-- A concrete environment. -/
def envA : SeekEnv := { now := 110, percentPos := 55, pausedProp := false }

/-- A second concrete environment, 30 seconds after `envA`. -/
def envB : SeekEnv := { now := 140, percentPos := 70, pausedProp := true }

/-- A third concrete environment, 90 seconds after `envA`. -/
def envC : SeekEnv := { now := 200, percentPos := 80, pausedProp := false }

/-- A concrete state for the end-of-media seek claims: duration 100,
position 96, and a live session at the 30-second rung with
`exact = false`. -/
def nearEndMpv : Mpv :=
  { emptyMpv with
      observed_properties := [("duration", JVal.num 100), ("time-pos", JVal.num 96)]
      seek_state := some
        { speed := .thirtySeconds, exact := false, ended := none, pos := 50, paused := false } }

/-- A concrete state for the chapter-derivation claims: chapters at
t = 0, 10, 30, duration 40, position 15. -/
def chapterMpv : Mpv :=
  { emptyMpv with
      observed_properties := [("time-pos", JVal.num 15), ("duration", JVal.num 40)]
      chapters := [⟨some "one", 0⟩, ⟨some "two", 10⟩, ⟨some "three", 30⟩] }

/-- A concrete application state on the hidden view. -/
def hiddenApp : App :=
  { view := .hidden
    mpv := emptyMpv
    dlnaVolumes := [40]
    ctxEffects := []
    exitRequested := false }

/-! ## Theorems -/

/-- Lookup after insert-or-replace: the inserted key reads the new value,
every other key is unaffected. -/
theorem lookup_insertProp (m : List (String × JVal)) (k name : String) (v : JVal) :
    lookupProp (insertProp m k v) name =
      if k = name then some v else lookupProp m name := by
  induction m with
  | nil =>
      by_cases h : k = name <;> simp [insertProp, lookupProp, h]
  | cons hd tl ih =>
      obtain ⟨k1, v1⟩ := hd
      by_cases h1 : k1 = k
      · subst h1
        by_cases h2 : k1 = name <;> simp [insertProp, lookupProp, h2]
      · by_cases h2 : k1 = name
        · subst h2
          have hk : ¬ k = k1 := fun h => h1 h.symm
          simp [insertProp, lookupProp, h1, hk]
        · simp [insertProp, lookupProp, h1, h2, ih]

/-- C7: on the SeekSpeed ladder, iterating `longer` from any value
reaches `none` (and `longer` is `none` exactly at the top rung),
iterating `shorter` reaches `none` (exactly at the bottom rung), and
`longer` and `shorter` are mutual inverses away from the endpoints, so
there is no wraparound. -/
theorem seekSpeed_ladder_props :
    (∀ s, stepN SeekSpeed.longer 5 s = none) ∧
    (∀ s, stepN SeekSpeed.shorter 5 s = none) ∧
    (∀ s, SeekSpeed.longer s = none ↔ s = SeekSpeed.tenMinutes) ∧
    (∀ s, SeekSpeed.shorter s = none ↔ s = SeekSpeed.second) ∧
    (∀ s t, SeekSpeed.longer s = some t → SeekSpeed.shorter t = some s) ∧
    (∀ s t, SeekSpeed.shorter s = some t → SeekSpeed.longer t = some s) := by
  refine ⟨?_, ?_, ?_, ?_, ?_, ?_⟩
  · intro s; cases s <;> rfl
  · intro s; cases s <;> rfl
  · intro s; cases s <;> decide
  · intro s; cases s <;> decide
  · intro s t; cases s <;> cases t <;> decide
  · intro s t; cases s <;> cases t <;> decide

/-- Witness for C7 at concrete rungs. -/
theorem seekSpeed_ladder_props_witness :
    stepN SeekSpeed.longer 5 SeekSpeed.second = none ∧
    SeekSpeed.shorter SeekSpeed.fiveSeconds = some SeekSpeed.second := by
  exact ⟨seekSpeed_ladder_props.1 .second,
    seekSpeed_ladder_props.2.2.2.2.1 .second .fiveSeconds rfl⟩

/-- C10: `seek_faster`, `seek_slower` and `toggle_seek_exact` operate on
any existing session (including one in Grace, since `st` is arbitrary),
modify only the speed or exact field, send no command, and are no-ops
exactly when no session exists or the speed is at the corresponding
ladder end. -/
theorem seek_adjusters_frame (s : Mpv) :
    (s.seek_state = none →
      s.seek_faster = s ∧ s.seek_slower = s ∧ s.toggle_seek_exact = s) ∧
    (∀ st, s.seek_state = some st →
      (s.seek_faster.sent = s.sent ∧ s.seek_slower.sent = s.sent ∧
        s.toggle_seek_exact.sent = s.sent) ∧
      s.toggle_seek_exact = { s with seek_state := some { st with exact := !st.exact } } ∧
      (∀ sp, st.speed.longer = some sp →
        s.seek_faster = { s with seek_state := some { st with speed := sp } }) ∧
      (st.speed.longer = none → s.seek_faster = s) ∧
      (∀ sp, st.speed.shorter = some sp →
        s.seek_slower = { s with seek_state := some { st with speed := sp } }) ∧
      (st.speed.shorter = none → s.seek_slower = s)) := by
  constructor
  · intro h
    refine ⟨?_, ?_, ?_⟩ <;>
      simp [Mpv.seek_faster, Mpv.seek_slower, Mpv.toggle_seek_exact, h]
  · intro st h
    refine ⟨⟨?_, ?_, ?_⟩, ?_, ?_, ?_, ?_, ?_⟩
    · rcases hl : st.speed.longer with _ | sp <;> simp [Mpv.seek_faster, h, hl]
    · rcases hl : st.speed.shorter with _ | sp <;> simp [Mpv.seek_slower, h, hl]
    · simp [Mpv.toggle_seek_exact, h]
    · simp [Mpv.toggle_seek_exact, h]
    · intro sp hsp; simp [Mpv.seek_faster, h, hsp]
    · intro hl; simp [Mpv.seek_faster, h, hl]
    · intro sp hsp; simp [Mpv.seek_slower, h, hsp]
    · intro hl; simp [Mpv.seek_slower, h, hl]

/-- Witness for C10 at a concrete Grace-state session. -/
theorem seek_adjusters_frame_witness :
    graceMpv.toggle_seek_exact =
      { graceMpv with seek_state := some { graceSession with exact := false } } ∧
    graceMpv.seek_faster =
      { graceMpv with seek_state := some { graceSession with speed := .tenMinutes } } ∧
    graceMpv.seek_faster.sent = graceMpv.sent ∧
    emptyMpv.seek_faster = emptyMpv := by
  have h := (seek_adjusters_frame graceMpv).2 graceSession rfl
  have h0 := (seek_adjusters_frame emptyMpv).1 rfl
  exact ⟨by simpa [graceSession] using h.2.1, h.2.2.1 _ rfl, h.1.1, h0.1⟩

/-- C1: `finish_seek` on an existing session followed by `start_seek`
within 60 seconds resumes the session as Live with the prior speed and
exact settings, a fresh position/pause snapshot, and a re-pause command;
`start_seek` at or after the 60-second mark instead creates a brand-new
session with default speed, `exact = false`, and a fresh snapshot. -/
theorem finish_then_start_seek (s : Mpv) (st : SeekState) (env1 env2 : SeekEnv)
    (h : s.seek_state = some st) :
    (env2.now - env1.now < 60 →
      ((s.finish_seek env1).start_seek env2).seek_state =
        some { speed := st.speed, exact := st.exact, ended := none,
               pos := env2.percentPos, paused := env2.pausedProp } ∧
      ((s.finish_seek env1).start_seek env2).sent =
        (s.finish_seek env1).sent ++ [pauseCmd]) ∧
    (60 ≤ env2.now - env1.now →
      ((s.finish_seek env1).start_seek env2).seek_state =
        some { speed := SeekSpeed.defaultSpeed, exact := false, ended := none,
               pos := env2.percentPos, paused := env2.pausedProp } ∧
      ((s.finish_seek env1).start_seek env2).sent =
        (s.finish_seek env1).sent ++ [pauseCmd]) := by
  constructor
  · intro hlt
    simp [Mpv.finish_seek, Mpv.start_seek, Mpv.seekState, h, hlt]
  · intro hge
    have hnlt : ¬ env2.now - env1.now < 60 := not_lt.mpr hge
    simp [Mpv.finish_seek, Mpv.start_seek, Mpv.seekState, h, hnlt]

/-- Witness for C1: resume after 30 seconds keeps speed 30s and exact,
restart after 90 seconds falls back to the 5-second default and
`exact = false`. -/
theorem finish_then_start_seek_witness :
    ((liveMpv.finish_seek envA).start_seek envB).seek_state =
      some { speed := .thirtySeconds, exact := true, ended := none,
             pos := 70, paused := true } ∧
    ((liveMpv.finish_seek envA).start_seek envC).seek_state =
      some { speed := .fiveSeconds, exact := false, ended := none,
             pos := 80, paused := false } := by
  constructor
  · have h := ((finish_then_start_seek liveMpv liveSession envA envB rfl).1 (by decide)).1
    simpa [liveSession, envB] using h
  · have h := ((finish_then_start_seek liveMpv liveSession envA envC rfl).2 (by decide)).1
    simpa [SeekSpeed.defaultSpeed, envC] using h

/-- C3: `start_seek` without a session snapshots the current position and
pause state; `cancel_seek` discards any session, writes the snapshot back
as an absolute `percent-pos` property write, and unpauses exactly when
the pre-session state was unpaused; with no session it is a no-op; and
cancel immediately after start restores the pre-session snapshot. -/
theorem start_snapshot_cancel_restores (s : Mpv) (env : SeekEnv) :
    (s.seek_state = none →
      (s.start_seek env).seek_state =
        some { speed := SeekSpeed.defaultSpeed, exact := false, ended := none,
               pos := env.percentPos, paused := env.pausedProp }) ∧
    (∀ st, s.seek_state = some st →
      s.cancel_seek.seek_state = none ∧
      s.cancel_seek.sent =
        s.sent ++ [MpvCommand.set_property "percent-pos" (JVal.num st.pos)]
          ++ (if st.paused then [] else [unpauseCmd])) ∧
    (s.seek_state = none → s.cancel_seek = s) ∧
    (s.seek_state = none →
      (s.start_seek env).cancel_seek.seek_state = none ∧
      (s.start_seek env).cancel_seek.sent =
        s.sent ++ [pauseCmd]
          ++ [MpvCommand.set_property "percent-pos" (JVal.num env.percentPos)]
          ++ (if env.pausedProp then [] else [unpauseCmd])) := by
  refine ⟨?_, ?_, ?_, ?_⟩
  · intro h
    simp [Mpv.start_seek, Mpv.seekState, h]
  · intro st h
    cases hp : st.paused <;> simp [Mpv.cancel_seek, h, hp]
  · intro h
    simp [Mpv.cancel_seek, h]
  · intro h
    cases hp : env.pausedProp <;>
      simp [Mpv.start_seek, Mpv.seekState, Mpv.cancel_seek, h, hp]

/-- Witness for C3 at the empty client and a concrete environment: the
snapshot is taken from the environment, and cancel restores it and
unpauses (the pre-session state was unpaused). -/
theorem start_snapshot_cancel_restores_witness :
    (emptyMpv.start_seek envA).seek_state =
      some { speed := .fiveSeconds, exact := false, ended := none,
             pos := 55, paused := false } ∧
    (emptyMpv.start_seek envA).cancel_seek.seek_state = none ∧
    (emptyMpv.start_seek envA).cancel_seek.sent =
      [pauseCmd, MpvCommand.set_property "percent-pos" (JVal.num 55), unpauseCmd] := by
  have h1 := (start_snapshot_cancel_restores emptyMpv envA).1 rfl
  have h4 := (start_snapshot_cancel_restores emptyMpv envA).2.2.2 rfl
  refine ⟨?_, h4.1, ?_⟩
  · simpa [SeekSpeed.defaultSpeed, envA] using h1
  · simpa [emptyMpv, envA] using h4.2

/-- A live session is returned untouched by `Mpv::seek_state`. -/
theorem seekState_of_live (s : Mpv) (st : SeekState) (env : SeekEnv)
    (h : s.seek_state = some st) (hlive : st.ended = none) :
    s.seekState env = s := by
  simp [Mpv.seekState, h, hlive]

/-- C2: with a live session, a forward seek whose known seconds-left
(duration minus position, defined exactly when both are cached with
positive duration and non-negative position) is strictly below the
current speed distance is issued in exact mode regardless of the session
flag; forward seeks with unknown or sufficient seconds-left, and all
backward seeks, are issued with the session exact flag unchanged. -/
theorem seek_forward_end_clamp (s : Mpv) (st : SeekState) (env : SeekEnv)
    (h : s.seek_state = some st) (hlive : st.ended = none) :
    (∀ d p, s.durationProp = some d → s.time_pos = some p →
      s.seconds_left = if 0 < d ∧ 0 ≤ p then some (d - p) else none) ∧
    (s.durationProp = none ∨ s.time_pos = none → s.seconds_left = none) ∧
    (∀ left, s.seconds_left = some left → left < st.speed.time →
      (s.seek_forward env).sent = s.sent ++ [MpvCommand.seek st.speed.time true]) ∧
    (∀ left, s.seconds_left = some left → st.speed.time ≤ left →
      (s.seek_forward env).sent = s.sent ++ [MpvCommand.seek st.speed.time st.exact]) ∧
    (s.seconds_left = none →
      (s.seek_forward env).sent = s.sent ++ [MpvCommand.seek st.speed.time st.exact]) ∧
    (s.seek_backward env).sent = s.sent ++ [MpvCommand.seek (-st.speed.time) st.exact] := by
  have hs1 : s.seekState env = s := seekState_of_live s st env h hlive
  refine ⟨?_, ?_, ?_, ?_, ?_, ?_⟩
  · intro d p hd hp
    simp [Mpv.seconds_left, hd, hp]
  · rintro (hd | hp)
    · simp [Mpv.seconds_left, hd]
    · cases hd : s.durationProp <;> simp [Mpv.seconds_left, hd, hp]
  · intro left hsl hlt
    simp [Mpv.seek_forward, Mpv.seek_inner, hs1, h, hsl, hlt]
  · intro left hsl hge
    simp [Mpv.seek_forward, Mpv.seek_inner, hs1, h, hsl, not_lt.mpr hge]
  · intro hsl
    simp [Mpv.seek_forward, Mpv.seek_inner, hs1, h, hsl]
  · simp [Mpv.seek_backward, Mpv.seek_inner, hs1, h]

/-- Witness for C2: with 4 seconds left and the 30-second rung, the
forward seek is exact even though the session flag is off; the backward
seek keeps the flag. -/
theorem seek_forward_end_clamp_witness :
    nearEndMpv.seconds_left = some 4 ∧
    (nearEndMpv.seek_forward envA).sent = [MpvCommand.seek 30 true] ∧
    (nearEndMpv.seek_backward envA).sent = [MpvCommand.seek (-30) false] := by
  have h := seek_forward_end_clamp nearEndMpv
    { speed := .thirtySeconds, exact := false, ended := none, pos := 50, paused := false }
    envA rfl rfl
  refine ⟨by decide, ?_, ?_⟩
  · have hf := h.2.2.1 4 (by decide) (by decide)
    simpa [nearEndMpv, emptyMpv] using hf
  · have hb := h.2.2.2.2.2
    simpa [nearEndMpv, emptyMpv] using hb

/-- C9: on the hidden view, a newly pressed South button maps through the
hidden-view button table to the show-UI command, whose execution replaces
the view with the seek bar and leaves every other part of the application
state untouched; in particular the player connection (cached properties,
event buffer, seek session, and sent-command trace) is unchanged. -/
theorem hidden_south_shows_seekbar (app : App) (env : SeekEnv)
    (h : app.view = .hidden) :
    HiddenView.button_actions.get .south = Command.showUi ∧
    Command.execute env (HiddenView.button_actions.get .south) app =
      { app with view := View.seekBar } ∧
    (Command.execute env (HiddenView.button_actions.get .south) app).mpv = app.mpv := by
  have hget : HiddenView.button_actions.get .south = Command.showUi := by rfl
  have hexec : Command.execute env (HiddenView.button_actions.get .south) app =
      { app with view := View.seekBar } := by
    rw [hget]
    simp [Command.execute, App.change_view, h]
  exact ⟨hget, hexec, by rw [hexec]⟩

/-- Witness for C9 at a concrete hidden-view application state. -/
theorem hidden_south_shows_seekbar_witness :
    Command.execute envA (HiddenView.button_actions.get .south) hiddenApp =
      { hiddenApp with view := View.seekBar } :=
  (hidden_south_shows_seekbar hiddenApp envA rfl).2.1

/-- One `handle_event` step on the cached map, for an ordinary property
name: a property-change for that name overwrites its entry, everything
else leaves the entry alone. -/
theorem lookup_handle_event_ordinary (s : Mpv) (ev : Event) (name : String)
    (h1 : name ≠ "playlist") (h2 : name ≠ "track-list") (h3 : name ≠ "chapter-list") :
    lookupProp (s.handle_event ev).observed_properties name =
      match ev with
      | .property_change data n =>
          if n = name then some data else lookupProp s.observed_properties name
      | _ => lookupProp s.observed_properties name := by
  cases ev with
  | seek => rfl
  | unknown => rfl
  | property_change data n =>
      by_cases hp : n = "playlist"
      · subst hp
        have hne : ¬ (("playlist" : String) = name) := fun hh => h1 hh.symm
        cases hd : deserPlaylist data <;> simp [Mpv.handle_event, hd, hne]
      · by_cases ht : n = "track-list"
        · subst ht
          have hne : ¬ (("track-list" : String) = name) := fun hh => h2 hh.symm
          cases hd : deserTrackList data <;> simp [Mpv.handle_event, hp, hd, hne]
        · by_cases hc : n = "chapter-list"
          · subst hc
            have hne : ¬ (("chapter-list" : String) = name) := fun hh => h3 hh.symm
            cases hd : deserChapterList data <;> simp [Mpv.handle_event, hp, ht, hd, hne]
          · simp [Mpv.handle_event, hp, ht, hc, lookup_insertProp]

/-- Folding `handle_event` over a batch leaves, for an ordinary property
name, the data of the last property-change for that name (or the prior
cached entry when the batch has none). -/
theorem lookup_foldl_handle_event (name : String)
    (h1 : name ≠ "playlist") (h2 : name ≠ "track-list") (h3 : name ≠ "chapter-list") :
    ∀ (evs : List Event) (s : Mpv),
      lookupProp (List.foldl Mpv.handle_event s evs).observed_properties name =
        match lastPropData name evs with
        | some d => some d
        | none => lookupProp s.observed_properties name := by
  intro evs
  induction evs with
  | nil => intro s; rfl
  | cons ev rest ih =>
      intro s
      have hstep := lookup_handle_event_ordinary s ev name h1 h2 h3
      simp only [List.foldl_cons]
      rw [ih (s.handle_event ev)]
      cases hrest : lastPropData name rest with
      | some d => simp [lastPropData, hrest]
      | none =>
          cases ev with
          | property_change data n =>
              by_cases hn : n = name
              · subst hn
                simpa [lastPropData, hrest] using hstep
              · simp [lastPropData, hrest, hn, hstep]
          | seek => simpa [lastPropData, hrest] using hstep
          | unknown => simpa [lastPropData, hrest] using hstep

/-- C4: after `update` drains a batch, every ordinary property name is
cached at the data of the last property-change event for that name in
arrival order over the pending buffer followed by the newly drained
events (falling back to the prior cached entry when the batch holds
none). -/
theorem update_last_write_wins (s : Mpv) (incoming : List Event) (name : String)
    (h1 : name ≠ "playlist") (h2 : name ≠ "track-list") (h3 : name ≠ "chapter-list") :
    lookupProp (s.update incoming).observed_properties name =
      match lastPropData name (s.event_buffer ++ incoming) with
      | some d => some d
      | none => lookupProp s.observed_properties name := by
  unfold Mpv.update Mpv.read_events
  rw [lookup_foldl_handle_event name h1 h2 h3]

/-- Witness for C4: two change events for `volume` in one drained batch
leave the cache at the data of the second event. -/
theorem update_last_write_wins_witness :
    lookupProp
        ((emptyMpv.update
          [Event.property_change (JVal.num 1) "volume",
           Event.property_change (JVal.num 2) "volume"])).observed_properties
        "volume" =
      some (JVal.num 2) := by
  have h := update_last_write_wins emptyMpv
      [Event.property_change (JVal.num 1) "volume",
       Event.property_change (JVal.num 2) "volume"] "volume"
      (by decide) (by decide) (by decide)
  simpa [lastPropData, emptyMpv] using h

/-- `read_response` only appends the event lines read before the
response to the pending buffer; nothing else in the state changes. -/
theorem read_response_buffers_events :
    ∀ (lines : List EventOrResponse) (s : Mpv) (resp : String × Option JVal) (s1 : Mpv),
      s.read_response lines = some (resp, s1) →
      s1 = { s with event_buffer := s.event_buffer ++ eventsBefore lines } := by
  intro lines
  induction lines with
  | nil =>
      intro s resp s1 h
      simp [Mpv.read_response] at h
  | cons line rest ih =>
      intro s resp s1 h
      cases line with
      | event e =>
          have hrec := ih { s with event_buffer := s.event_buffer ++ [e] } resp s1
            (by simpa [Mpv.read_response] using h)
          rw [hrec]
          simp [eventsBefore]
      | response err data =>
          simp [Mpv.read_response] at h
          rw [← h.2]
          simp [eventsBefore]

/-- C5: every event line read while awaiting a response is appended to
the pending-event buffer (and nothing else changes), and a subsequent
`update` handles the previously buffered events before the newly drained
ones — one pass, in overall arrival order. -/
theorem response_wait_fifo (s : Mpv) (lines : List EventOrResponse)
    (resp : String × Option JVal) (s1 : Mpv) (incoming : List Event)
    (h : s.read_response lines = some (resp, s1)) :
    s1 = { s with event_buffer := s.event_buffer ++ eventsBefore lines } ∧
    s1.update incoming =
      List.foldl Mpv.handle_event { s with event_buffer := [] }
        (s.event_buffer ++ eventsBefore lines ++ incoming) := by
  have hs1 := read_response_buffers_events lines s resp s1 h
  subst hs1
  refine ⟨rfl, ?_⟩
  unfold Mpv.update Mpv.read_events
  simp

/-- Witness for C5: one buffered event line ahead of a success response
is kept and handled before a newly drained event. -/
theorem response_wait_fifo_witness :
    (emptyMpv.read_response
        [.event (.property_change (JVal.num 7) "volume"),
         .response "success" none]) =
      some (("success", (none : Option JVal)),
        { emptyMpv with event_buffer := [Event.property_change (JVal.num 7) "volume"] }) ∧
    ({ emptyMpv with
        event_buffer := [Event.property_change (JVal.num 7) "volume"] }).update
        [Event.property_change (JVal.num 8) "volume"] =
      List.foldl Mpv.handle_event { emptyMpv with event_buffer := [] }
        [Event.property_change (JVal.num 7) "volume",
         Event.property_change (JVal.num 8) "volume"] := by
  constructor
  · rfl
  · have h := response_wait_fifo emptyMpv
      [.event (.property_change (JVal.num 7) "volume"), .response "success" none]
      ("success", none)
      { emptyMpv with event_buffer := [Event.property_change (JVal.num 7) "volume"] }
      [Event.property_change (JVal.num 8) "volume"] rfl
    simpa [emptyMpv, eventsBefore] using h.2

/-- C6 counterexample: with `volume` cached as a string, a numeric read
of it does not panic, contrary to the claim: the cached read yields
`none`, and the blocking read path falls back to a fresh observation,
returning the value of the next arriving `volume` event. -/
theorem cached_deser_failure_no_panic :
    Mpv.get_property_cached JVal.asNum badCacheMpv "volume" = none ∧
    Mpv.get_property JVal.asNum badCacheMpv "volume"
        [Event.property_change (JVal.num 42) "volume"] = PropRead.value 42 ∧
    Mpv.get_property JVal.asNum badCacheMpv "volume"
        [Event.property_change (JVal.num 42) "volume"] ≠ PropRead.panicked := by
  refine ⟨rfl, rfl, by decide⟩

/-- C6 amended: a cached value that fails to deserialize makes the cached
read yield `none` (never a panic); the blocking `get_property` read then
falls back to observing the property and panics exactly when the first
property-change event for that name that it sees also fails to
deserialize; for the composite list properties, a payload that fails to
deserialize leaves the whole state (in particular the corresponding
field) unchanged. -/
theorem cached_deser_failure_fallback {α : Type} (d : JVal → Option α)
    (s : Mpv) (name : String) (v : JVal) (future : List Event)
    (hv : lookupProp s.observed_properties name = some v) (hbad : d v = none) :
    s.get_property_cached d name = none ∧
    (s.get_property d name future = PropRead.panicked ↔
      ∃ data, findPropChange name (s.event_buffer ++ future) = some data ∧
        d data = none) ∧
    (∀ data, deserPlaylist data = none →
      s.handle_event (.property_change data "playlist") = s) ∧
    (∀ data, deserTrackList data = none →
      s.handle_event (.property_change data "track-list") = s) ∧
    (∀ data, deserChapterList data = none →
      s.handle_event (.property_change data "chapter-list") = s) := by
  have hcache : s.get_property_cached d name = none := by
    simp [Mpv.get_property_cached, hv, hbad]
  refine ⟨hcache, ?_, ?_, ?_, ?_⟩
  · unfold Mpv.get_property
    rw [hcache]
    cases hf : findPropChange name (s.event_buffer ++ future) with
    | none => simp [hf]
    | some data =>
        cases hd : d data with
        | none => simp [hf, hd]
        | some t => simp [hf, hd]
  · intro data hdp
    simp [Mpv.handle_event, hdp]
  · intro data hdp
    simp [Mpv.handle_event, hdp]
  · intro data hdp
    simp [Mpv.handle_event, hdp]

/-- Witness for the amended C6: the bad cached value falls back, the
panic happens exactly when the awaited event data is also bad, and a
non-list `chapter-list` payload leaves the state unchanged. -/
theorem cached_deser_failure_fallback_witness :
    Mpv.get_property_cached JVal.asNum badCacheMpv "volume" = none ∧
    Mpv.get_property JVal.asNum badCacheMpv "volume"
        [Event.property_change (JVal.str "x") "volume"] = PropRead.panicked ∧
    badCacheMpv.handle_event
        (.property_change (JVal.num 3) "chapter-list") = badCacheMpv := by
  have h := cached_deser_failure_fallback JVal.asNum badCacheMpv "volume"
      (JVal.str "loud") [Event.property_change (JVal.str "x") "volume"] rfl rfl
  exact ⟨h.1, h.2.1.mpr ⟨JVal.str "x", rfl, rfl⟩, h.2.2.2.2 (JVal.num 3) rfl⟩

/-- When `rposition` finds nothing, no element satisfies the predicate. -/
theorem rposition_none (p : α → Bool) :
    ∀ l : List α, rposition p l = none → ∀ x ∈ l, p x = false := by
  intro l
  induction l with
  | nil => intro _ x hx; cases hx
  | cons a as ih =>
      intro h x hx
      unfold rposition at h
      cases hr : rposition p as with
      | some k => rw [hr] at h; cases h
      | none =>
          rw [hr] at h
          by_cases hp : p a
          · simp [hp] at h
          · rcases List.mem_cons.mp hx with rfl | hx
            · simpa using hp
            · exact ih hr x hx

/-- `rposition` returns the last index satisfying the predicate: the
index is in range, its element satisfies the predicate, and no later
element does. -/
theorem rposition_spec (p : α → Bool) :
    ∀ (l : List α) (i : ℕ), rposition p l = some i →
      ∃ hi : i < l.length, p (l.get ⟨i, hi⟩) = true ∧
        ∀ j (hj : j < l.length), i < j → p (l.get ⟨j, hj⟩) = false := by
  intro l
  induction l with
  | nil => intro i h; simp [rposition] at h
  | cons a as ih =>
      intro i h
      unfold rposition at h
      cases hr : rposition p as with
      | some k =>
          rw [hr] at h
          obtain rfl : k + 1 = i := by simpa using h
          obtain ⟨hk, hpk, hafter⟩ := ih k hr
          refine ⟨by simpa using Nat.succ_lt_succ hk, by simpa using hpk, ?_⟩
          intro j hj hij
          cases j with
          | zero => omega
          | succ j2 =>
              have hj2 : j2 < as.length := by simpa using hj
              have := hafter j2 hj2 (by omega)
              simpa using this
      | none =>
          rw [hr] at h
          by_cases hp : p a
          · rw [if_pos hp] at h
            obtain rfl : 0 = i := by simpa using h
            refine ⟨by simp, by simpa using hp, ?_⟩
            intro j hj hij
            cases j with
            | zero => omega
            | succ j2 =>
                have hj2 : j2 < as.length := by simpa using hj
                have := rposition_none p as hr (as.get ⟨j2, hj2⟩) (List.get_mem ..)
                simpa using this
          · rw [if_neg hp] at h; cases h

/-- If some element satisfies the predicate, `rposition` finds one. -/
theorem rposition_ne_none (p : α → Bool) (l : List α) (x : α)
    (hx : x ∈ l) (hp : p x = true) : rposition p l ≠ none := by
  intro h
  have := rposition_none p l h x hx
  rw [hp] at this
  cases this

/-- On a list sorted by start time, the index `rposition` returns for
the starts-before predicate carries the greatest start time among those
at most the position. -/
theorem rposition_greatest_start (cs : List ChapterRaw) (tp : ℤ) (i : ℕ)
    (hsorted : List.Pairwise (fun a b => a.time ≤ b.time) cs)
    (h : rposition (fun c => decide (c.time ≤ tp)) cs = some i) :
    ∃ hi : i < cs.length, (cs.get ⟨i, hi⟩).time ≤ tp ∧
      ∀ j (hj : j < cs.length), (cs.get ⟨j, hj⟩).time ≤ tp →
        (cs.get ⟨j, hj⟩).time ≤ (cs.get ⟨i, hi⟩).time := by
  obtain ⟨hi, hpi, hafter⟩ := rposition_spec _ cs i h
  refine ⟨hi, by simpa using hpi, ?_⟩
  intro j hj hle
  rcases lt_trichotomy j i with hlt | rfl | hgt
  · have := List.pairwise_iff_getElem.mp hsorted j i hj hi hlt
    simpa [List.get_eq_getElem] using this
  · exact le_refl _
  · have := hafter j hj hgt
    simp only [decide_eq_false_iff_not] at this
    exact absurd hle this

/-- The derived chapter list is as long as the raw one. -/
theorem chaptersView_length (s : Mpv) :
    s.chaptersView.length = s.chapters.length := by
  unfold Mpv.chaptersView
  by_cases h : s.chapters.isEmpty
  · rw [if_pos h]
    have hnil : s.chapters = [] := List.isEmpty_iff.mp h
    simp [hnil]
  · rw [if_neg h]
    have hne : s.chapters.length ≠ 0 := by
      simpa [List.isEmpty_iff, List.length_eq_zero] using h
    simp only [List.enum_length, List.length_zip, List.length_map,
      List.length_append, List.length_drop, List.length_cons, List.length_nil]
    omega

/-- The shape of one entry of the derived chapter list: title and start
copied from the raw chapter, the current flag comparing the derived
current index with this index, and the duration running to the next
start (or the duration fallback for the last chapter). -/
theorem chaptersView_get (s : Mpv) (i : ℕ) (hi : i < s.chapters.length)
    (hv : i < s.chaptersView.length) :
    s.chaptersView.get ⟨i, hv⟩ =
      { title := (s.chapters.get ⟨i, hi⟩).title
        start := (s.chapters.get ⟨i, hi⟩).time
        current := decide ((s.time_pos.bind fun tp =>
          rposition (fun c => decide (c.time ≤ tp)) s.chapters) = some i)
        duration :=
          (if h2 : i + 1 < s.chapters.length
            then (s.chapters.get ⟨i + 1, h2⟩).time
            else s.duration_fallback) - (s.chapters.get ⟨i, hi⟩).time } := by
  have hne : ¬ s.chapters.isEmpty := by
    intro hemp
    rw [List.isEmpty_iff.mp hemp] at hi
    simp at hi
  simp only [List.get_eq_getElem]
  simp only [Mpv.chaptersView, if_neg hne]
  simp only [List.getElem_map, List.getElem_enum, List.getElem_zip]
  congr 1
  by_cases h2 : i + 1 < s.chapters.length
  · have hlt : i < (List.map (fun x => x.time) (List.drop 1 s.chapters)).length := by
      simp only [List.length_map, List.length_drop]
      omega
    rw [dif_pos h2, List.getElem_append_left hlt]
    simp [List.getElem_map, List.getElem_drop, Nat.add_comm]
  · have hge : (List.map (fun x => x.time) (List.drop 1 s.chapters)).length ≤ i := by
      simp only [List.length_map, List.length_drop]
      omega
    rw [dif_neg h2, List.getElem_append_right hge]
    simp

/-- C8: the derived chapter list is empty for an empty raw list; no
chapter is current when the position is unknown; with a known position,
a chapter marked current starts at or before the position and carries
the greatest such start time, and one is marked whenever any chapter
starts at or before the position; every chapter lasts from its own start
to the start of the next chapter, the final one to the media duration
fallback. -/
theorem chapters_derivation (s : Mpv)
    (hsorted : List.Pairwise (fun a b => a.time ≤ b.time) s.chapters) :
    (s.chapters = [] → s.chaptersView = []) ∧
    (s.time_pos = none → ∀ c ∈ s.chaptersView, c.current = false) ∧
    (∀ tp, s.time_pos = some tp →
      ∀ i (hi : i < s.chapters.length) (hv : i < s.chaptersView.length),
        (s.chaptersView.get ⟨i, hv⟩).current = true →
          (s.chapters.get ⟨i, hi⟩).time ≤ tp ∧
          ∀ j (hj : j < s.chapters.length),
            (s.chapters.get ⟨j, hj⟩).time ≤ tp →
            (s.chapters.get ⟨j, hj⟩).time ≤ (s.chapters.get ⟨i, hi⟩).time) ∧
    (∀ tp, s.time_pos = some tp →
      ∀ j (hj : j < s.chapters.length), (s.chapters.get ⟨j, hj⟩).time ≤ tp →
      ∃ i, ∃ hv : i < s.chaptersView.length,
        (s.chaptersView.get ⟨i, hv⟩).current = true) ∧
    (∀ i (hi : i < s.chapters.length) (hv : i < s.chaptersView.length),
      (s.chaptersView.get ⟨i, hv⟩).start = (s.chapters.get ⟨i, hi⟩).time ∧
      (s.chaptersView.get ⟨i, hv⟩).duration =
        (if h2 : i + 1 < s.chapters.length
          then (s.chapters.get ⟨i + 1, h2⟩).time
          else s.duration_fallback) - (s.chapters.get ⟨i, hi⟩).time) := by
  refine ⟨?_, ?_, ?_, ?_, ?_⟩
  · intro h
    unfold Mpv.chaptersView
    simp [h]
  · intro htp c hc
    obtain ⟨n, hn⟩ := List.mem_iff_get.mp hc
    rcases n with ⟨n, hvn⟩
    have hi : n < s.chapters.length := by
      rw [← chaptersView_length s]
      exact hvn
    rw [← hn, chaptersView_get s n hi hvn]
    simp [htp]
  · intro tp htp i hi hv hcur
    rw [chaptersView_get s i hi hv] at hcur
    simp only [htp, Option.bind_some, decide_eq_true_eq] at hcur
    obtain ⟨hi2, hle, hgr⟩ := rposition_greatest_start s.chapters tp i hsorted hcur
    exact ⟨hle, hgr⟩
  · intro tp htp j hj hjle
    have hne := rposition_ne_none (fun c => decide (c.time ≤ tp)) s.chapters
      (s.chapters.get ⟨j, hj⟩) (List.get_mem ..) (by simpa using hjle)
    cases hrp : rposition (fun c => decide (c.time ≤ tp)) s.chapters with
    | none => exact absurd hrp hne
    | some k =>
        obtain ⟨hk, -, -⟩ := rposition_spec _ s.chapters k hrp
        have hkv : k < s.chaptersView.length := by
          rw [chaptersView_length s]
          exact hk
        refine ⟨k, hkv, ?_⟩
        rw [chaptersView_get s k hk hkv]
        simp [htp, hrp]
  · intro i hi hv
    rw [chaptersView_get s i hi hv]
    exact ⟨rfl, rfl⟩

/-- Witness for C8 at chapters 0/10/30, duration 40, position 15: the
second chapter (index 1) is the current one and lasts 20 seconds. -/
theorem chapters_derivation_witness :
    (chapterMpv.chaptersView.get ⟨1, by decide⟩).duration = 20 ∧
    (chapterMpv.chaptersView.get ⟨1, by decide⟩).current = true ∧
    (chapterMpv.chaptersView.get ⟨0, by decide⟩).current = false ∧
    (chapterMpv.chaptersView.get ⟨2, by decide⟩).current = false := by
  have h := (chapters_derivation chapterMpv (by decide)).2.2.2.2 1 (by decide) (by decide)
  exact ⟨h.2.trans (by decide), by decide, by decide, by decide⟩

end Htpc
